import Mathlib

/-!
Verification of the reddit-tommy pipeline (`src/main.py`).

Python text values are modelled as lists of Unicode code points (`Str`), so
Python `len`, slicing `[:n]`, `join`, `splitlines` and `strip` become the
corresponding executable list functions.  External effects (the Reddit page
fetch, the OpenAI call, file writes, the Telegram send) are modelled by their
outcomes: an `Except` value whose `error` case stands for the Python call
raising an exception.
-/

namespace RedditTommy

/-- A Python `str`, as its list of Unicode code points. -/
abbrev Str := List Char

/-- `SUBREDDIT_MAX_POSTS = 8`. -/
def SUBREDDIT_MAX_POSTS : Nat := 8

/-- `POST_MAX_COMMENTS = 21`. -/
def POST_MAX_COMMENTS : Nat := 21

/-- The line-boundary characters recognised by Python `str.splitlines`. -/
def isLineBreak (c : Char) : Bool :=
  c == '\n' || c == '\r' || c.toNat == 11 || c.toNat == 12 ||
  c.toNat == 28 || c.toNat == 29 || c.toNat == 30 || c.toNat == 133 ||
  c.toNat == 8232 || c.toNat == 8233

/-- The whitespace removed by Python `str.strip` (its ASCII fragment; every
line-boundary character below code point 128 is also whitespace). -/
def isPySpace (c : Char) : Bool :=
  c == ' ' || c == '\t' || c == '\n' || c == '\r' || c.toNat == 11 || c.toNat == 12

/-- Prepend a character to the first line of a line list (helper for
`splitlines`). -/
def consHead (c : Char) : List Str → List Str
  | [] => [[c]]
  | line :: lines => (c :: line) :: lines

/-- Python `str.splitlines`: split at each line boundary, `"\r\n"` counting as
a single boundary; a trailing boundary produces no trailing empty line. -/
def splitlines : Str → List Str
  | [] => []
  | c :: rest =>
    if isLineBreak c then
      match rest with
      | [] => [[]]
      | d :: rest2 =>
        if c == '\r' && d == '\n' then [] :: splitlines rest2
        else [] :: splitlines (d :: rest2)
    else consHead c (splitlines rest)

/-- Python `sep.join(xs)`. -/
def pyJoin (sep : Str) : List Str → Str
  | [] => []
  | [x] => x
  | x :: y :: ys => x ++ sep ++ pyJoin sep (y :: ys)

/-- Python `s.strip()`: remove leading and trailing whitespace. -/
def pyStrip (s : Str) : Str :=
  ((s.dropWhile isPySpace).reverse.dropWhile isPySpace).reverse

/-- `" ".join(body.splitlines()).strip()` — the comment-body normalisation in
`get_submission_comments`. -/
def normalizeBody (b : Str) : Str :=
  pyStrip (pyJoin [' '] (splitlines b))

/-- One node of the flattened comment listing `submission.comments.list()`;
`body` is `getattr(c, 'body', None)` (`none` for nodes without a body). -/
structure Comment where
  body : Option Str
deriving DecidableEq

/-- The loop of `get_submission_comments`: append each truthy body, normalised,
and break as soon as `POST_MAX_COMMENTS` bodies have been collected. -/
def collectLoop : List Comment → List Str → List Str
  | [], comments => comments
  | c :: rest, comments =>
    match c.body with
    | none => collectLoop rest comments
    | some b =>
      if b = [] then collectLoop rest comments
      else
        let comments2 := comments ++ [normalizeBody b]
        if POST_MAX_COMMENTS ≤ comments2.length then comments2
        else collectLoop rest comments2

/-- `get_submission_comments`: skip the first element of the flattened listing
(`[1:]`), then collect up to `POST_MAX_COMMENTS` normalised bodies.  (The
`except` clause of the Python function concerns a failing external traversal
and is modelled in the orchestrator's effect model, not here.) -/
def get_submission_comments (flat : List Comment) : List Str :=
  collectLoop (flat.drop 1) []

/-- The normalised body contributed by one node: `none` when the node is
skipped (`if not body: continue`). -/
def eligBody (c : Comment) : Option Str :=
  match c.body with
  | none => none
  | some b => if b = [] then none else some (normalizeBody b)

/-- All eligible normalised bodies of a listing, in order. -/
def eligibleBodies (l : List Comment) : List Str := l.filterMap eligBody

/-- One fetched submission as read by `get_today_posts`; `comments_list` is the
flattened listing `submission.comments.list()` after `replace_more`. -/
structure Submission where
  title : Str
  score : Int
  num_comments : Int
  selftext : Str
  shortlink : Str
  created_utc : Int
  comments_list : List Comment
deriving DecidableEq

/-- The dict built per included submission in `get_today_posts`. -/
structure Post where
  title : Str
  score : Int
  num_comments : Int
  selftext : Str
  shortlink : Str
  created_utc : Int
  comments : List Str
deriving DecidableEq

/-- `submission.selftext[:1000] if submission.selftext else ''` and the other
fields captured for one included submission. -/
def mkPost (s : Submission) : Post :=
  { title := s.title
    score := s.score
    num_comments := s.num_comments
    selftext := if s.selftext = [] then [] else s.selftext.take 1000
    shortlink := s.shortlink
    created_utc := s.created_utc
    comments := get_submission_comments s.comments_list }

/-- `get_today_posts`: keep each fetched submission whose `created_utc` is at
or after `now_ts - 24h` (`cutoff_ts`), in fetch order.  `now_ts` is the
timestamp taken at collection time, `fetched` the page returned by
`subreddit.new(limit=SUBREDDIT_MAX_POSTS)`. -/
def get_today_posts (now_ts : Int) (fetched : List Submission) : List Post :=
  let cutoff_ts := now_ts - 24 * 60 * 60
  fetched.filterMap fun s =>
    if cutoff_ts ≤ s.created_utc then some (mkPost s) else none

/-- The fixed empty-input reply of `prepare_posts_for_summary`. -/
def noPostsMsg : Str := "No posts found for today.".toList

/-- The comment separator `" \n- "`. -/
def commentSep : Str := " \n- ".toList

/-- `combined = " \n- ".join(comments)` followed by
`if len(combined) > max_chars: combined = combined[:max_chars] + "..."` with
`max_chars = 3000`, from `prepare_posts_for_summary`. -/
def cappedComments (comments : List Str) : Str :=
  if 3000 < (pyJoin commentSep comments).length
  then (pyJoin commentSep comments).take 3000 ++ "...".toList
  else pyJoin commentSep comments

/-- Python `str(n)` for the 1-based block number. -/
def natStr (n : Nat) : Str := (toString n).toList

/-- Python `str(i)` inside an f-string. -/
def intStr (i : Int) : Str := (toString i).toList

/-- The block emitted for the `i`-th (1-based) ranked post in
`prepare_posts_for_summary`. -/
def postBlock (i : Nat) (p : Post) : Str :=
  "~~~POST #".toList ++ natStr i ++ " START\n".toList ++
  "Title: ".toList ++ p.title ++ ['\n'] ++
  "Score: ".toList ++ intStr p.score ++ ['\n'] ++
  "Comments: ".toList ++ intStr p.num_comments ++ ['\n'] ++
  "Link: ".toList ++ p.shortlink ++ ['\n'] ++
  (if p.selftext = [] then []
   else "Post content: ".toList ++ p.selftext.take 1500 ++ "...\n\n".toList) ++
  (if p.comments = [] then []
   else "Comments:\n- ".toList ++ cappedComments p.comments ++ ['\n']) ++
  "~~~POST #".toList ++ natStr i ++ " END\n\n".toList

/-- The sort key comparison of `sorted(posts, key=lambda x: x['score'],
reverse=True)`: `a` may come before `b` iff `a`'s score is at least `b`'s. -/
def scoreGe (a b : Post) : Prop := b.score ≤ a.score

instance : DecidableRel scoreGe :=
  fun a b => inferInstanceAs (Decidable (b.score ≤ a.score))

instance : IsTotal Post scoreGe := ⟨fun a b => Int.le_total b.score a.score⟩

instance : IsTrans Post scoreGe := ⟨fun _ _ _ h1 h2 => le_trans h2 h1⟩

/-- `sorted(posts, key=lambda x: x['score'], reverse=True)`: Python `sorted`
is a stable sort; insertion sort with `scoreGe` is that stable sort. -/
def sortPosts (posts : List Post) : List Post :=
  List.insertionSort scoreGe posts

/-- The digest header `f"Today's Reddit r/{subreddit} posts:\n\n"`. -/
def headerFor (sub : Str) : Str :=
  "Today's Reddit r/".toList ++ sub ++ " posts:\n\n".toList

/-- `prepare_posts_for_summary` (the DigestFormatter). -/
def prepare_posts_for_summary (sub : Str) (posts : List Post) : Str :=
  if posts = [] then noPostsMsg
  else
    let posts_sorted := sortPosts posts
    headerFor sub ++ (posts_sorted.enum.map fun ip => postBlock (ip.1 + 1) ip.2).flatten

/-- `prepare_posts_for_summary` with the caller's list threaded through
explicitly: the body only calls `sorted` (which allocates a fresh list) and
reads post fields, so the caller's list is handed back exactly as received. -/
def prepare_posts_for_summary_st (sub : Str) (posts : List Post) : Str × List Post :=
  if posts = [] then (noPostsMsg, posts)
  else
    let posts_sorted := sortPosts posts
    (headerFor sub ++ (posts_sorted.enum.map fun ip => postBlock (ip.1 + 1) ip.2).flatten,
     posts)

/-- The literal prefix of the diagnostic string of `summarize_with_openai`. -/
def errPrefix : Str := "Error generating summary: ".toList

/-- `summarize_with_openai`: the whole guarded call (request plus
`response.choices[0].message.content` extraction) is the oracle `backend`;
`error e` means it raised with text `str(e)`.  The `except` clause converts
any exception into a diagnostic string. -/
def summarize_with_openai (backend : Str → Except Str Str) (text : Str) : Str :=
  match backend text with
  | Except.ok content => content
  | Except.error e => errPrefix ++ e

/-- One entry of the dated output folder: a file name and the outcome of
reading it (`none` = the `open`/`read` raised, i.e. the file is unreadable). -/
structure FolderFile where
  name : Str
  content : Option Str
deriving DecidableEq

/-- Whether an effect outcome is a success. -/
def isOkE : Except ε α → Bool
  | Except.ok _ => true
  | Except.error _ => false

/-- The fixed suffix of the glob pattern `"*-summary.txt"`. -/
def summaryGlobSuffix : Str := "-summary.txt".toList

/-- Membership in `glob.glob(os.path.join(folder, "*-summary.txt"))`: the name
ends with `-summary.txt`. -/
def matchesSummaryGlob (name : Str) : Bool :=
  summaryGlobSuffix.isSuffixOf name

/-- Comparison underlying `sorted(glob.glob(...))`, lifted to folder entries
(path names in one folder are unique keys): Python compares path strings
lexicographically by code point, the lexicographic order on `List Char`. -/
def nameLe (f g : FolderFile) : Prop := f.name ≤ g.name

instance : DecidableRel nameLe :=
  fun f g => inferInstanceAs (Decidable (f.name ≤ g.name))

instance : IsTotal FolderFile nameLe := ⟨fun f g => le_total f.name g.name⟩

instance : IsTrans FolderFile nameLe := ⟨fun _ _ _ h1 h2 => le_trans h1 h2⟩

/-- `sorted(glob.glob(os.path.join(folder, "*-summary.txt")))`: the matching
entries in lexicographic name order. -/
def sortedSummaryFiles (folder : List FolderFile) : List FolderFile :=
  List.insertionSort nameLe (folder.filter fun f => matchesSummaryGlob f.name)

/-- The read loop of `collect_summaries_in_folder`: append each readable
file's stripped content; an unreadable file is skipped (`except: continue`). -/
def readChunks : List FolderFile → List Str
  | [] => []
  | f :: fs =>
    match f.content with
    | some c => pyStrip c :: readChunks fs
    | none => readChunks fs

/-- The blank-line separator `"\n\n"`. -/
def blankSep : Str := "\n\n".toList

/-- `collect_summaries_in_folder`: `"\n\n".join([c for c in chunks if c])`
over the stripped contents of the matching files in sorted order. -/
def collect_summaries_in_folder (folder : List FolderFile) : Str :=
  pyJoin blankSep ((readChunks (sortedSummaryFiles folder)).filter fun c => !c.isEmpty)

/-- The effectful collaborators of one per-source run, by outcome.  `fetch` is
the whole Reddit page iteration feeding `get_today_posts`; `backend` the
guarded OpenAI call; the two `persist` fields the `write_output_file` calls
for `<sub>.txt` and `<sub>-summary.txt`; `notify` the Telegram send.  An
`error` value means the corresponding Python call raised. -/
structure SourceEnv where
  fetch : Except Str (List Submission)
  now_ts : Int
  backend : Str → Except Str Str
  persistDigest : Except Str Unit
  persistSummary : Except Str Unit
  notify : Except Str Unit

/-- The summary banner `f"📊 TODAY'S r/{subreddit} SUMMARY\n\n"`. -/
def summaryHeader (sub : Str) : Str :=
  "📊 TODAY'S r/".toList ++ sub ++ " SUMMARY\n\n".toList

/-- The body of `RedditSummarizer.run` inside the `try` block, in source
order: collect, format, summarize, persist digest, persist summary, notify. -/
def runBody (env : SourceEnv) (sub : Str) : Except Str Str := do
  let fetched ← env.fetch
  let posts := get_today_posts env.now_ts fetched
  let posts_text := prepare_posts_for_summary sub posts
  let summary := summaryHeader sub ++ summarize_with_openai env.backend posts_text
  let _ ← env.persistDigest
  let _ ← env.persistSummary
  let _ ← env.notify
  pure summary

/-- `RedditSummarizer.run`: any exception raised in the body is caught and the
run returns the empty string. -/
def runSource (env : SourceEnv) (sub : Str) : Str :=
  match runBody env sub with
  | Except.ok s => s
  | Except.error _ => []

/-- The per-source loop of `main`: every configured source is run, in order,
each with its own collaborator outcomes. -/
def runAll (envs : Str → SourceEnv) (sources : List Str) : List Str :=
  sources.map fun s => runSource (envs s) s

/-- Whether some step of the per-source run raises. -/
def stepRaises (env : SourceEnv) : Bool :=
  !isOkE env.fetch || !isOkE env.persistDigest ||
  !isOkE env.persistSummary || !isOkE env.notify

/-! Concrete inputs for the witness theorems. -/

/-- A source whose page fetch raises. -/
def failEnv : SourceEnv :=
  { fetch := Except.error ("boom".toList)
    now_ts := 0
    backend := fun _ => Except.ok []
    persistDigest := Except.ok ()
    persistSummary := Except.ok ()
    notify := Except.ok () }

def c1Envs : Str → SourceEnv := fun _ => failEnv

def c1Src : Str := "stocks".toList

/-- A backend whose call always raises with text `down`. -/
def wBackend : Str → Except Str Str := fun _ => Except.error ("down".toList)

/-- A submission created exactly at the 24-hour cutoff for `now_ts = 172800`. -/
def wSub : Submission :=
  { title := "t".toList
    score := 1
    num_comments := 0
    selftext := []
    shortlink := "sl".toList
    created_utc := 86400
    comments_list := [] }

/-- A post with score 5 (first in input order). -/
def wPostA : Post :=
  { title := "a".toList, score := 5, num_comments := 0, selftext := [],
    shortlink := [], created_utc := 0, comments := [] }

/-- A post with score 20 (second in input order). -/
def wPostB : Post := { wPostA with title := "b".toList, score := 20 }

/-- A post with score 20 (third in input order). -/
def wPostC : Post := { wPostA with title := "c".toList, score := 20 }

/-- A post with one short comment. -/
def wPostD : Post := { wPostA with comments := ["hi".toList] }

/-- A small flattened comment listing: boilerplate head, one real body with a
newline, one body-less node, one empty body, one more real body. -/
def wFlat : List Comment :=
  [⟨some ("ads".toList)⟩, ⟨some ("a\nb".toList)⟩, ⟨none⟩, ⟨some []⟩,
   ⟨some ("x".toList)⟩]

def wsbName : Str := "wallstreetbets-summary.txt".toList

def stocksName : Str := "stocks-summary.txt".toList

def wsbContent : Str := "wsb text".toList

def stocksContent : Str := "stocks text".toList

/-! ### Helper lemmas -/

theorem consHead_forall {P : Char → Prop} {c : Char} {ls : List Str}
    (hc : P c) (h : ∀ l ∈ ls, ∀ x ∈ l, P x) :
    ∀ l ∈ consHead c ls, ∀ x ∈ l, P x := by
  cases ls with
  | nil =>
    intro l hl x hx
    simp only [consHead, List.mem_singleton] at hl
    subst hl
    rcases List.mem_singleton.mp hx with rfl
    exact hc
  | cons line lines =>
    intro l hl x hx
    rcases List.mem_cons.mp hl with rfl | hl2
    · rcases List.mem_cons.mp hx with rfl | hx2
      · exact hc
      · exact h line (List.mem_cons_self line lines) x hx2
    · exact h l (List.mem_cons_of_mem line hl2) x hx

theorem splitlines_cons_of_not_break {c : Char} (rest : Str)
    (hbr : isLineBreak c = false) :
    splitlines (c :: rest) = consHead c (splitlines rest) := by
  cases rest <;> simp [splitlines, hbr]

theorem splitlines_no_break (s : Str) :
    ∀ line ∈ splitlines s, ∀ c ∈ line, isLineBreak c = false := by
  induction s using splitlines.induct with
  | case1 =>
    intro line hline
    cases hline
  | case2 c hbr => simp [splitlines, hbr]
  | case3 c hbr d rest2 hcd ih =>
    intro line hline x hx
    rw [show splitlines (c :: d :: rest2) = [] :: splitlines rest2 by
      simp [splitlines, hbr, hcd]] at hline
    rcases List.mem_cons.mp hline with rfl | hl2
    · cases hx
    · exact ih line hl2 x hx
  | case4 c hbr d rest2 hcd ih =>
    intro line hline x hx
    rw [show splitlines (c :: d :: rest2) = [] :: splitlines (d :: rest2) by
      simp [splitlines, hbr, hcd]] at hline
    rcases List.mem_cons.mp hline with rfl | hl2
    · cases hx
    · exact ih line hl2 x hx
  | case5 c rest hbr ih =>
    have hc : isLineBreak c = false := by
      simpa using hbr
    intro line hline x hx
    rw [splitlines_cons_of_not_break rest hc] at hline
    exact consHead_forall hc ih line hline x hx

theorem pyJoin_space_no_break :
    ∀ ls : List Str, (∀ line ∈ ls, ∀ x ∈ line, isLineBreak x = false) →
      ∀ c ∈ pyJoin [' '] ls, isLineBreak c = false
  | [], _ => by simp [pyJoin]
  | [x], h => by
    simpa [pyJoin] using h x (List.mem_singleton_self x)
  | x :: y :: ys, h => by
    intro c hc
    rw [pyJoin] at hc
    rcases List.mem_append.mp hc with hc1 | hc2
    · rcases List.mem_append.mp hc1 with hx | hsep
      · exact h x (List.mem_cons_self x (y :: ys)) c hx
      · rcases List.mem_singleton.mp hsep with rfl
        decide
    · exact pyJoin_space_no_break (y :: ys)
        (fun l hl => h l (List.mem_cons_of_mem x hl)) c hc2

theorem pyStrip_subset (s : Str) : ∀ c ∈ pyStrip s, c ∈ s := by
  intro c hc
  unfold pyStrip at hc
  rw [List.mem_reverse] at hc
  have h1 := (List.dropWhile_sublist isPySpace).subset hc
  rw [List.mem_reverse] at h1
  exact (List.dropWhile_sublist isPySpace).subset h1

/-! ### Claim theorems -/

/-- C9: for every comment body, including bodies with embedded line breaks of
any kind, the normalised output of the comment flattener contains no newline
character: every line break is replaced by a space and the result is trimmed. -/
theorem flattener_no_newlines (b : Str) :
    ∀ c ∈ normalizeBody b, isLineBreak c = false := by
  intro c hc
  have h1 : c ∈ pyJoin [' '] (splitlines b) := pyStrip_subset _ c hc
  exact pyJoin_space_no_break (splitlines b) (splitlines_no_break b) c h1

theorem flattener_no_newlines_witness :
    ('a' ∈ normalizeBody ("a\nb".toList)) ∧ isLineBreak 'a' = false :=
  ⟨by decide, flattener_no_newlines ("a\nb".toList) 'a' (by decide)⟩

/-- C6: for the empty post sequence, `prepare_posts_for_summary` returns
exactly the fixed no-posts literal, which is non-empty. -/
theorem digest_empty_literal (sub : Str) :
    prepare_posts_for_summary sub [] = noPostsMsg ∧
    noPostsMsg = "No posts found for today.".toList ∧
    noPostsMsg ≠ [] :=
  ⟨rfl, rfl, by decide⟩

theorem digest_empty_literal_witness :
    prepare_posts_for_summary ("stocks".toList) [] = noPostsMsg :=
  (digest_empty_literal ("stocks".toList)).1

/-- C3: if the backend call raises, `summarize_with_openai` returns (not
raises) the non-empty diagnostic string embedding the failure description. -/
theorem summarizer_failure_string (backend : Str → Except Str Str) (text e : Str)
    (h : backend text = Except.error e) :
    summarize_with_openai backend text = errPrefix ++ e ∧
    summarize_with_openai backend text ≠ [] ∧
    e <:+ summarize_with_openai backend text := by
  unfold summarize_with_openai
  rw [h]
  refine ⟨rfl, ?_, ⟨errPrefix, rfl⟩⟩
  intro h0
  rw [List.append_eq_nil] at h0
  exact absurd h0.1 (by decide)

theorem summarizer_failure_string_witness :
    wBackend [] = Except.error ("down".toList) ∧
    summarize_with_openai wBackend [] = errPrefix ++ "down".toList :=
  ⟨rfl, (summarizer_failure_string wBackend [] ("down".toList) rfl).1⟩

/-- C4: `get_today_posts` never includes a fetched submission created strictly
before `now_ts - 24h`, and always includes one created at or after it. -/
theorem collector_cutoff (now_ts : Int) (fetched : List Submission) :
    (∀ p ∈ get_today_posts now_ts fetched, now_ts - 24 * 60 * 60 ≤ p.created_utc) ∧
    (∀ s ∈ fetched, now_ts - 24 * 60 * 60 ≤ s.created_utc →
      mkPost s ∈ get_today_posts now_ts fetched) := by
  constructor
  · intro p hp
    simp only [get_today_posts, List.mem_filterMap] at hp
    obtain ⟨s, hs, hif⟩ := hp
    by_cases h : now_ts - 24 * 60 * 60 ≤ s.created_utc
    · rw [if_pos h] at hif
      obtain rfl : mkPost s = p := Option.some.inj hif
      exact h
    · rw [if_neg h] at hif
      cases hif
  · intro s hs h
    simp only [get_today_posts, List.mem_filterMap]
    exact ⟨s, hs, by rw [if_pos h]⟩

theorem collector_cutoff_witness :
    ((172800 : Int) - 24 * 60 * 60 ≤ wSub.created_utc) ∧
    mkPost wSub ∈ get_today_posts 172800 [wSub] :=
  ⟨by decide, (collector_cutoff 172800 [wSub]).2 wSub (by decide) (by decide)⟩

theorem filter_score_orderedInsert (s : Int) (p : Post) :
    ∀ l : List Post,
      (List.orderedInsert scoreGe p l).filter (fun q => decide (q.score = s)) =
        (p :: l).filter (fun q => decide (q.score = s))
  | [] => rfl
  | q :: qs => by
    by_cases h : scoreGe p q
    · rw [List.orderedInsert_of_le scoreGe qs h]
    · have hlt : p.score < q.score := lt_of_not_le h
      have ih := filter_score_orderedInsert s p qs
      rw [show List.orderedInsert scoreGe p (q :: qs) =
            q :: List.orderedInsert scoreGe p qs by
        simp [List.orderedInsert, h]]
      by_cases hq : q.score = s
      · have hp : ¬ p.score = s := by omega
        simp [List.filter_cons, hq, hp, ih]
      · by_cases hp : p.score = s
        · simp [List.filter_cons, hq, hp, ih]
        · simp [List.filter_cons, hq, hp, ih]

theorem filter_score_sortPosts (s : Int) : ∀ posts : List Post,
    (sortPosts posts).filter (fun q => decide (q.score = s)) =
      posts.filter (fun q => decide (q.score = s))
  | [] => rfl
  | p :: l => by
    have h1 := filter_score_orderedInsert s p (List.insertionSort scoreGe l)
    have h2 := filter_score_sortPosts s l
    simp only [sortPosts] at h2 ⊢
    rw [List.insertionSort, h1]
    rw [List.filter_cons, List.filter_cons, h2]

/-- C2: the formatter ranks posts by nonincreasing score, equal-score posts
keep their input order (for every score value, filtering the ranked list to
that score gives exactly the input sublist), and for input scores
`[5, 20, 20]` the ranked order is `[second, third, first]`. -/
theorem formatter_sort_stable (posts : List Post) (s : Int) :
    List.Sorted scoreGe (sortPosts posts) ∧
    (sortPosts posts).filter (fun q => decide (q.score = s)) =
      posts.filter (fun q => decide (q.score = s)) ∧
    ∀ p1 p2 p3 : Post, p1.score = 5 → p2.score = 20 → p3.score = 20 →
      sortPosts [p1, p2, p3] = [p2, p3, p1] := by
  refine ⟨List.sorted_insertionSort scoreGe posts, filter_score_sortPosts s posts, ?_⟩
  intro p1 p2 p3 h1 h2 h3
  simp [sortPosts, List.insertionSort, List.orderedInsert, scoreGe, h1, h2, h3]

theorem formatter_sort_stable_witness :
    wPostA.score = 5 ∧ wPostB.score = 20 ∧ wPostC.score = 20 ∧
    sortPosts [wPostA, wPostB, wPostC] = [wPostB, wPostC, wPostA] :=
  ⟨rfl, rfl, rfl, (formatter_sort_stable [] 0).2.2 wPostA wPostB wPostC rfl rfl rfl⟩

theorem collectLoop_eq :
    ∀ (l : List Comment) (acc : List Str), acc.length < POST_MAX_COMMENTS →
      collectLoop l acc =
        acc ++ (eligibleBodies l).take (POST_MAX_COMMENTS - acc.length)
  | [], acc, _ => by simp [collectLoop, eligibleBodies]
  | c :: rest, acc, h => by
    obtain ⟨body⟩ := c
    cases body with
    | none =>
      rw [show collectLoop (Comment.mk none :: rest) acc = collectLoop rest acc
            from rfl,
          collectLoop_eq rest acc h]
      simp [eligibleBodies, List.filterMap_cons, eligBody]
    | some b =>
      rw [show collectLoop (Comment.mk (some b) :: rest) acc =
            (if b = [] then collectLoop rest acc
             else
               if POST_MAX_COMMENTS ≤ (acc ++ [normalizeBody b]).length
               then acc ++ [normalizeBody b]
               else collectLoop rest (acc ++ [normalizeBody b])) from rfl]
      by_cases hbe : b = []
      · rw [if_pos hbe, collectLoop_eq rest acc h]
        simp [eligibleBodies, List.filterMap_cons, eligBody, hbe]
      · rw [if_neg hbe]
        simp only [eligibleBodies, List.filterMap_cons, eligBody, if_neg hbe]
        by_cases hlen : POST_MAX_COMMENTS ≤ (acc ++ [normalizeBody b]).length
        · rw [if_pos hlen]
          have hacc : POST_MAX_COMMENTS - acc.length = 1 := by
            simp only [List.length_append, List.length_singleton] at hlen
            omega
          rw [hacc, List.take_succ_cons, List.take_zero]
        · rw [if_neg hlen]
          have h2 : (acc ++ [normalizeBody b]).length < POST_MAX_COMMENTS :=
            lt_of_not_le hlen
          rw [collectLoop_eq rest (acc ++ [normalizeBody b]) h2]
          have h3 : POST_MAX_COMMENTS - acc.length =
              (POST_MAX_COMMENTS - (acc ++ [normalizeBody b]).length) + 1 := by
            simp only [List.length_append, List.length_singleton] at h2 ⊢
            omega
          rw [h3, List.take_succ_cons, List.append_assoc]
          rfl

theorem get_submission_comments_eq (flat : List Comment) :
    get_submission_comments flat =
      (eligibleBodies (flat.drop 1)).take POST_MAX_COMMENTS := by
  rw [get_submission_comments, collectLoop_eq (flat.drop 1) [] (by decide)]
  simp

/-- C5: the comment flattener returns at most `POST_MAX_COMMENTS` bodies, and
returns fewer only when the listing — after dropping its first element and
every node without a truthy body — has fewer than that many eligible items. -/
theorem flattener_cap (flat : List Comment) :
    (get_submission_comments flat).length ≤ POST_MAX_COMMENTS ∧
    ((get_submission_comments flat).length < POST_MAX_COMMENTS →
      (eligibleBodies (flat.drop 1)).length < POST_MAX_COMMENTS) := by
  rw [get_submission_comments_eq]
  constructor
  · exact List.length_take_le ..
  · intro hlt
    by_contra hge
    push_neg at hge
    rw [List.length_take, min_eq_left hge] at hlt
    exact absurd hlt (lt_irrefl _)

theorem flattener_cap_witness :
    (eligibleBodies (wFlat.drop 1)).length < POST_MAX_COMMENTS :=
  (flattener_cap wFlat).2 (by decide)

/-- C8: in every emitted post block the body excerpt is truncated to at most
1500 characters, and the joined comment text is left alone when it fits in
3000 characters but is cut to exactly 3000 with the `"..."` marker appended
when it does not. -/
theorem formatter_truncation (posts : List Post) (p : Post) (hp : p ∈ posts) :
    (p.selftext.take 1500).length ≤ 1500 ∧
    ((pyJoin commentSep p.comments).length ≤ 3000 →
      cappedComments p.comments = pyJoin commentSep p.comments) ∧
    (3000 < (pyJoin commentSep p.comments).length →
      cappedComments p.comments =
        (pyJoin commentSep p.comments).take 3000 ++ "...".toList ∧
      ((pyJoin commentSep p.comments).take 3000).length = 3000) := by
  refine ⟨List.length_take_le .., ?_, ?_⟩
  · intro hle
    rw [cappedComments, if_neg (by omega)]
  · intro hgt
    rw [cappedComments, if_pos hgt]
    refine ⟨rfl, ?_⟩
    rw [List.length_take]
    exact min_eq_left (by omega)

theorem formatter_truncation_witness :
    (wPostD ∈ [wPostD]) ∧
    cappedComments wPostD.comments = pyJoin commentSep wPostD.comments :=
  ⟨List.mem_singleton_self wPostD,
   (formatter_truncation [wPostD] wPostD (List.mem_singleton_self wPostD)).2.1
     (by decide)⟩

/-- C10: the formatter hands the caller's list back unchanged (it only reads
it; `sorted` builds a fresh list), and the ranked order is a permutation of
the input. -/
theorem formatter_preserves_input (sub : Str) (posts : List Post) :
    (prepare_posts_for_summary_st sub posts).2 = posts ∧
    (prepare_posts_for_summary_st sub posts).1 = prepare_posts_for_summary sub posts ∧
    (sortPosts posts).Perm posts := by
  refine ⟨?_, ?_, List.perm_insertionSort scoreGe posts⟩ <;>
    by_cases h : posts = [] <;>
      simp [prepare_posts_for_summary_st, prepare_posts_for_summary, h]

theorem formatter_preserves_input_witness :
    (prepare_posts_for_summary_st ("stocks".toList) [wPostA, wPostB]).2 =
      [wPostA, wPostB] :=
  (formatter_preserves_input ("stocks".toList) [wPostA, wPostB]).1

theorem orderedInsert_of_forall {α : Type} {r : α → α → Prop} [DecidableRel r]
    {x : α} : ∀ {l : List α}, (∀ z ∈ l, r x z) →
      List.orderedInsert r x l = x :: l
  | [], _ => rfl
  | y :: ys, h => List.orderedInsert_of_le r ys (h y (List.mem_cons_self y ys))

theorem filter_orderedInsert {α : Type} {r : α → α → Prop} [DecidableRel r]
    [IsTrans α r] (p : α → Bool) (x : α) :
    ∀ l : List α, List.Sorted r l →
      (List.orderedInsert r x l).filter p =
        if p x then List.orderedInsert r x (l.filter p) else l.filter p
  | [], _ => by
    cases hpx : p x <;> simp [List.orderedInsert, hpx]
  | y :: ys, hs => by
    have hy : ∀ z ∈ ys, r y z := List.rel_of_sorted_cons hs
    have ih := filter_orderedInsert p x ys hs.of_cons
    by_cases hr : r x y
    · rw [List.orderedInsert_of_le r ys hr]
      cases hpx : p x with
      | false => simp [List.filter_cons, hpx]
      | true =>
        cases hpy : p y with
        | true =>
          simp only [List.filter_cons, hpx, hpy, if_true]
          rw [List.orderedInsert_of_le r _ hr]
        | false =>
          have hfor : ∀ z ∈ ys.filter p, r x z := fun z hz =>
            IsTrans.trans x y z hr (hy z (List.mem_of_mem_filter hz))
          simp only [List.filter_cons, hpx, hpy, if_true, Bool.false_eq_true,
            if_false, orderedInsert_of_forall hfor]
    · have hskip : List.orderedInsert r x (y :: ys) =
          y :: List.orderedInsert r x ys := by
        simp [List.orderedInsert, hr]
      rw [hskip]
      cases hpx : p x with
      | true =>
        cases hpy : p y with
        | true =>
          simp only [List.filter_cons, hpx, hpy, if_true, ih]
          rw [show List.orderedInsert r x (y :: ys.filter p) =
                y :: List.orderedInsert r x (ys.filter p) by
            simp [List.orderedInsert, hr]]
        | false =>
          simp only [List.filter_cons, hpx, hpy, if_true, Bool.false_eq_true,
            if_false, ih]
      | false =>
        cases hpy : p y <;>
          simp only [List.filter_cons, hpx, hpy, if_true, Bool.false_eq_true,
            if_false, ih]

theorem filter_insertionSort {α : Type} (r : α → α → Prop) [DecidableRel r]
    [IsTotal α r] [IsTrans α r] (p : α → Bool) :
    ∀ l : List α,
      (List.insertionSort r l).filter p = List.insertionSort r (l.filter p)
  | [] => rfl
  | x :: l => by
    rw [List.insertionSort,
      filter_orderedInsert p x (List.insertionSort r l) (List.sorted_insertionSort r l),
      filter_insertionSort r p l, List.filter_cons]
    cases hpx : p x <;> simp [hpx, List.insertionSort]

theorem readChunks_filter :
    ∀ l : List FolderFile,
      readChunks l = readChunks (l.filter fun f => f.content.isSome)
  | [] => rfl
  | f :: fs => by
    obtain ⟨name, content⟩ := f
    cases content with
    | none =>
      rw [show readChunks (FolderFile.mk name none :: fs) = readChunks fs from rfl,
          readChunks_filter fs]
      simp [List.filter_cons]
    | some c =>
      rw [show readChunks (FolderFile.mk name (some c) :: fs) =
            pyStrip c :: readChunks fs from rfl]
      rw [show (FolderFile.mk name (some c) :: fs).filter
            (fun f => f.content.isSome) =
          FolderFile.mk name (some c) :: fs.filter (fun f => f.content.isSome) from by
        simp [List.filter_cons]]
      rw [show readChunks (FolderFile.mk name (some c) ::
            fs.filter fun f => f.content.isSome) =
          pyStrip c :: readChunks (fs.filter fun f => f.content.isSome) from rfl]
      rw [readChunks_filter fs]

/-- C7: the aggregation pass is unaffected by unreadable artifacts (its result
on a folder equals its result on the folder's readable entries), and with
exactly the two artifacts `stocks-summary.txt` and `wallstreetbets-summary.txt`
present (listed here in the opposite order) it returns the stocks content, a
blank line, then the wallstreetbets content. -/
theorem aggregation_order (folder : List FolderFile) :
    collect_summaries_in_folder folder =
      collect_summaries_in_folder (folder.filter fun f => f.content.isSome) ∧
    ∀ c1 c2 : Str, pyStrip c1 = c1 → pyStrip c2 = c2 → c1 ≠ [] → c2 ≠ [] →
      collect_summaries_in_folder
          [⟨wsbName, some c1⟩, ⟨stocksName, some c2⟩] =
        c2 ++ blankSep ++ c1 := by
  constructor
  · unfold collect_summaries_in_folder sortedSummaryFiles
    rw [readChunks_filter,
      filter_insertionSort nameLe (fun f => f.content.isSome),
      List.filter_comm]
  · intro c1 c2 h1 h2 h3 h4
    have hsort : sortedSummaryFiles
        [⟨wsbName, some c1⟩, ⟨stocksName, some c2⟩] =
        [⟨stocksName, some c2⟩, ⟨wsbName, some c1⟩] := by
      have hw : matchesSummaryGlob wsbName = true := by decide
      have hst : matchesSummaryGlob stocksName = true := by decide
      have hno0 : ¬ (wsbName ≤ stocksName) := by decide
      have hno : ¬ nameLe (⟨wsbName, some c1⟩ : FolderFile)
          ⟨stocksName, some c2⟩ :=
        fun hcon => hno0 hcon
      simp only [sortedSummaryFiles, List.filter_cons, hw, hst, if_true,
        List.filter_nil, List.insertionSort, List.orderedInsert, if_neg hno]
    rw [collect_summaries_in_folder, hsort]
    rw [show readChunks [⟨stocksName, some c2⟩, ⟨wsbName, some c1⟩] =
          [pyStrip c2, pyStrip c1] from rfl]
    rw [h1, h2]
    rw [show ([c2, c1].filter fun c => !c.isEmpty) = [c2, c1] from by
      simp [List.filter_cons, List.isEmpty_iff, h3, h4]]
    rfl

theorem aggregation_order_witness :
    pyStrip wsbContent = wsbContent ∧ pyStrip stocksContent = stocksContent ∧
    wsbContent ≠ [] ∧ stocksContent ≠ [] ∧
    collect_summaries_in_folder
        [⟨wsbName, some wsbContent⟩, ⟨stocksName, some stocksContent⟩] =
      stocksContent ++ blankSep ++ wsbContent :=
  ⟨by decide, by decide, by decide, by decide,
   (aggregation_order []).2 wsbContent stocksContent
     (by decide) (by decide) (by decide) (by decide)⟩

theorem runSource_of_raises (env : SourceEnv) (sub : Str)
    (h : stepRaises env = true) : runSource env sub = [] := by
  unfold runSource runBody
  cases hf : env.fetch with
  | error e => simp [bind, Except.bind]
  | ok fetched =>
    cases hd : env.persistDigest with
    | error e => simp [bind, Except.bind]
    | ok u =>
      cases hs2 : env.persistSummary with
      | error e => simp [bind, Except.bind]
      | ok v =>
        cases hn : env.notify with
        | error e => simp [bind, Except.bind]
        | ok w =>
          exfalso
          simp [stepRaises, isOkE, hf, hd, hs2, hn] at h

/-- C1: if any step of a per-source run raises, that source's run returns the
empty string, while the runs before and after it are exactly the runs those
sources have on their own (the per-source loop runs each source
independently, in order). -/
theorem orchestrator_isolates_failure (envs : Str → SourceEnv)
    (pre post : List Str) (s : Str) (h : stepRaises (envs s) = true) :
    runAll envs (pre ++ s :: post) =
      runAll envs pre ++ ([] : Str) :: runAll envs post ∧
    runAll envs post = post.map fun t => runSource (envs t) t := by
  constructor
  · unfold runAll
    rw [List.map_append, List.map_cons, runSource_of_raises (envs s) s h]
  · rfl

theorem orchestrator_isolates_failure_witness :
    stepRaises (c1Envs c1Src) = true ∧
    runAll c1Envs ([] ++ c1Src :: []) =
      runAll c1Envs [] ++ ([] : Str) :: runAll c1Envs [] :=
  ⟨by decide, (orchestrator_isolates_failure c1Envs [] [] c1Src (by decide)).1⟩

end RedditTommy
